import Mathlib

/-!
Verification of the SumDB batchmap build orchestrator (`main` in the
`experimental/batchmap/sumdb/build/map` package) against its
natural-language specification.

The Go program is shallowly embedded: the orchestrator `main` becomes a
pure function from the flag configuration and the observable behaviour of
its external collaborators (the SumDB mirror database, the map tile
database, and the Beam dataflow engine) to a trace of store/engine events
paired with the final outcome.  `glog.Exitf` sites become distinct
`ExitCause` values; the Beam pipeline is represented by the `Graph`
structure recording exactly the arguments wired into each transform.
-/

namespace SumDBMap

/-- The single hash algorithm used by the program:
`const hash = crypto.SHA512_256`. -/
inductive HashAlg where
  | sha512_256
deriving DecidableEq, Repr

/-- The flag configuration surface of `main` (package-level `flag.*`
variables). -/
structure Flags where
  sumDB : String
  mapDB : String
  treeID : Int
  prefixStrata : Nat
  count : Int
  batchSize : Nat
  incrementalUpdate : Bool
  buildVersionList : Bool
deriving DecidableEq, Repr

/-- One row of the SumDB mirror `checkpoints` table: a `datetime` column
and the checkpoint bytes. -/
structure CheckpointRow where
  datetime : Int
  checkpoint : List Nat
deriving DecidableEq, Repr

/-- Observable content of the SumDB mirror database: the `checkpoints`
table and the `leafMetadata` table (only the row ids matter to the
orchestrator, which reads `COUNT(*)` and half-open id ranges). -/
structure SumDBState where
  checkpoints : List CheckpointRow
  leafIds : List Int
deriving DecidableEq, Repr

/-- Semantics of `SELECT checkpoint FROM checkpoints ORDER BY datetime
DESC LIMIT 1` followed by `Scan`: the first row holding the maximal
`datetime`, or `none` when the table is empty (in which case `Scan`
returns `sql.ErrNoRows`). -/
def latestCheckpointRow : List CheckpointRow → Option CheckpointRow
  | [] => none
  | r :: rs =>
    match latestCheckpointRow rs with
    | none => some r
    | some m => if m.datetime > r.datetime then some m else some r

/-- Model of `getEntryMetadata`: returns the most recently stored
checkpoint and the total number of `leafMetadata` rows; fails when no
checkpoint row exists.  (The `COUNT(*)` query on an opened database is
modelled as total.) -/
def getEntryMetadata (s : SumDBState) : Except Unit (List Nat × Nat) :=
  match latestCheckpointRow s.checkpoints with
  | none => .error ()
  | some r => .ok (r.checkpoint, s.leafIds.length)

/-- Observable behaviour of the map tile database (`mapdb.TileDB`), whose
implementation lives outside this package: whether `NewTileDB`/`Init`
succeed, the result of `NextWriteRevision`, the result of
`LatestRevision` as `(revision, checkpoint, logSize)` with `none` for any
query error (including the no-prior-revision case), and whether the final
`WriteRevision` succeeds. -/
structure MapDBEnv where
  initOk : Bool
  nextWriteRev : Option Int
  latestRev : Option (Int × List Nat × Int)
  writeRevisionOk : Bool
deriving DecidableEq, Repr

/-- Observable behaviour of the Beam engine for one invocation: whether
pipeline construction (`batchmap.Create`/`batchmap.Update`) returns an
error, and whether `beamx.Run` succeeds. -/
structure RunEnv where
  constructOk : Bool
  graphRunOk : Bool
deriving DecidableEq, Repr

/-- The tree transform wired into the pipeline: `batchmap.Create(s,
entries, treeID, hash, prefixStrata)` in full mode, or `batchmap.Update(s,
priorTiles, entries, treeID, hash, prefixStrata)` in incremental mode,
where `priorRev` records the revision whose tiles are read back
(`SELECT * FROM tiles WHERE revision=lastMapRev`). -/
inductive TreeOp where
  | create (treeID : Int) (h : HashAlg) (strata : Nat)
  | update (priorRev : Int) (treeID : Int) (h : HashAlg) (strata : Nat)
deriving DecidableEq, Repr

/-- The assembled dataflow graph: source range `[sourceStart, sourceEnd)`
over `leafMetadata`, whether the version-list transform is flattened in,
the tree transform, the revision tag applied by `tileToDBRowFn`, and the
sink batch size. -/
structure Graph where
  sourceStart : Int
  sourceEnd : Int
  versionList : Bool
  treeOp : TreeOp
  sinkRevision : Int
  batchSize : Nat
deriving DecidableEq, Repr

/-- Store/engine events of one invocation of `main`, in program order. -/
inductive Event where
  | openSumDB
  | openMapDB
  | nextWriteRevision (rev : Int)
  | getEntryMetadata
  | latestRevision
  | constructGraph (g : Graph)
  | runGraph
  | writeRevision (rev : Int) (checkpoint : List Nat) (endID : Int)
deriving DecidableEq, Repr

/-- The distinct `glog.Exitf` sites of `main` and its helpers. -/
inductive ExitCause where
  | configVersionListWithIncremental
  | missingSumDBFlag
  | missingMapDBFlag
  | mapDBInitFailed
  | nextWriteRevisionFailed
  | entryMetadataFailed
  | insufficientLeaves (want : Int) (avail : Nat)
  | latestRevisionFailed
  | emptyRange (startID : Int) (endID : Int)
  | pipelineConstructionFailed
  | jobFailed
  | writeRevisionFailed
deriving DecidableEq, Repr

/-- Data committed by the final `mapDB.WriteRevision(rev, golden, endID)`. -/
structure BuildResult where
  revision : Int
  checkpoint : List Nat
  endID : Int
deriving DecidableEq, Repr

/-- Constant `hash = crypto.SHA512_256`. -/
def hash : HashAlg := .sha512_256

/-- The resolved end of the entry range: `endID = totalLeaves` when the
`count` flag is negative (use all), else `endID = count`. -/
def resolveEndID (count : Int) (totalLeaves : Nat) : Int :=
  if count < 0 then (totalLeaves : Int) else count

/-- The tree transform selected by the mode: `batchmap.Update` reading the
prior revision's tiles when updating, `batchmap.Create` otherwise. -/
def treeOpOf (fl : Flags) (lastRev : Option Int) : TreeOp :=
  match lastRev with
  | some lr => .update lr fl.treeID hash fl.prefixStrata
  | none => .create fl.treeID hash fl.prefixStrata

/-- The dataflow graph assembled by `main` for the given range, mode and
allocated revision. -/
def graphOf (fl : Flags) (rev : Int) (startID endID : Int)
    (lastRev : Option Int) : Graph :=
  { sourceStart := startID, sourceEnd := endID,
    versionList := fl.buildVersionList, treeOp := treeOpOf fl lastRev,
    sinkRevision := rev, batchSize := fl.batchSize }

/-- The pipeline-construction / run / finalize phase of `main`: assemble
the graph (source, entry transforms, tree transform, row conversion at
`rev`, sink), check the construction error, run it with `beamx.Run`, and
on success call `mapDB.WriteRevision(rev, golden, endID)`. -/
def runPhase (fl : Flags) (mdb : MapDBEnv) (env : RunEnv) (pre : List Event)
    (rev : Int) (golden : List Nat) (startID endID : Int)
    (lastRev : Option Int) : List Event × Except ExitCause BuildResult :=
  if env.constructOk = false then
    (pre ++ [.constructGraph (graphOf fl rev startID endID lastRev)],
     .error .pipelineConstructionFailed)
  else if env.graphRunOk = false then
    (pre ++ [.constructGraph (graphOf fl rev startID endID lastRev),
             .runGraph],
     .error .jobFailed)
  else if mdb.writeRevisionOk = false then
    (pre ++ [.constructGraph (graphOf fl rev startID endID lastRev),
             .runGraph, .writeRevision rev golden endID],
     .error .writeRevisionFailed)
  else
    (pre ++ [.constructGraph (graphOf fl rev startID endID lastRev),
             .runGraph, .writeRevision rev golden endID],
     .ok { revision := rev, checkpoint := golden, endID := endID })

/-- Shallow embedding of `main`: flag validation, store initialization
(`newSumDBMirrorFromFlags`, then `sinkFromFlags` which allocates the next
write revision), metadata read, range/mode resolution, pipeline
construction and run, and the final `WriteRevision`.  Returns the event
trace together with the outcome. -/
def mainBuild (fl : Flags) (sum : SumDBState) (mdb : MapDBEnv)
    (env : RunEnv) : List Event × Except ExitCause BuildResult :=
  if fl.buildVersionList = true ∧ fl.incrementalUpdate = true then
    ([], .error .configVersionListWithIncremental)
  else if fl.sumDB.length = 0 then
    ([], .error .missingSumDBFlag)
  else if fl.mapDB.length = 0 then
    ([.openSumDB], .error .missingMapDBFlag)
  else if mdb.initOk = false then
    ([.openSumDB, .openMapDB], .error .mapDBInitFailed)
  else
    match mdb.nextWriteRev with
    | none => ([.openSumDB, .openMapDB], .error .nextWriteRevisionFailed)
    | some rev =>
      match getEntryMetadata sum with
      | .error _ =>
        ([.openSumDB, .openMapDB, .nextWriteRevision rev, .getEntryMetadata],
         .error .entryMetadataFailed)
      | .ok (golden, totalLeaves) =>
        if (totalLeaves : Int) < fl.count then
          ([.openSumDB, .openMapDB, .nextWriteRevision rev,
            .getEntryMetadata],
           .error (.insufficientLeaves fl.count totalLeaves))
        else
          if fl.incrementalUpdate = true then
            match mdb.latestRev with
            | none =>
              ([.openSumDB, .openMapDB, .nextWriteRevision rev,
                .getEntryMetadata, .latestRevision],
               .error .latestRevisionFailed)
            | some (lastMapRev, _, startID) =>
              if startID ≥ resolveEndID fl.count totalLeaves then
                ([.openSumDB, .openMapDB, .nextWriteRevision rev,
                  .getEntryMetadata, .latestRevision],
                 .error (.emptyRange startID
                    (resolveEndID fl.count totalLeaves)))
              else
                runPhase fl mdb env
                  [.openSumDB, .openMapDB, .nextWriteRevision rev,
                   .getEntryMetadata, .latestRevision]
                  rev golden startID (resolveEndID fl.count totalLeaves)
                  (some lastMapRev)
          else
            runPhase fl mdb env
              [.openSumDB, .openMapDB, .nextWriteRevision rev,
               .getEntryMetadata]
              rev golden 0 (resolveEndID fl.count totalLeaves) none

/-- One node of the map: `batchmap.Tile` (`Path`, `Leaves` as
`(path, hash)` pairs, `RootHash`), with byte slices as lists of bytes. -/
structure Tile where
  path : List Nat
  leaves : List (List Nat × List Nat)
  rootHash : List Nat
deriving DecidableEq, Repr

/-- Length-prefixed encoding of one byte field, used to model JSON
serialization of a `Tile` as an injective byte encoding. -/
def encBytes (bs : List Nat) : List Nat := bs.length :: bs

/-- Encoding of one `TileLeaf` (its path and hash fields). -/
def encLeaf (l : List Nat × List Nat) : List Nat := encBytes l.1 ++ encBytes l.2

/-- Model of `json.Marshal` on a `batchmap.Tile`: a concrete injective
encoding of the three fields (for this struct shape, marshalling in the
source never fails). -/
def jsonMarshalTile (t : Tile) : List Nat :=
  encBytes t.path ++ t.leaves.length :: t.leaves.flatMap encLeaf
    ++ encBytes t.rootHash

/-- Decoder for one length-prefixed byte field; returns the field and the
remaining input. -/
def decBytes : List Nat → Option (List Nat × List Nat)
  | [] => none
  | n :: rest =>
    if n ≤ rest.length then some (rest.take n, rest.drop n) else none

/-- Decoder for a counted sequence of encoded `TileLeaf` values. -/
def decLeaves : Nat → List Nat → Option (List (List Nat × List Nat) × List Nat)
  | 0, rest => some ([], rest)
  | n + 1, rest => do
    let (p, r1) ← decBytes rest
    let (h, r2) ← decBytes r1
    let (ls, r3) ← decLeaves n r2
    some ((p, h) :: ls, r3)

/-- Model of `json.Unmarshal` into a `batchmap.Tile`: the decoder of
`jsonMarshalTile`. -/
def jsonUnmarshalTile (bs : List Nat) : Option Tile := do
  let (p, r1) ← decBytes bs
  match r1 with
  | [] => none
  | n :: r2 => do
    let (ls, r3) ← decLeaves n r2
    let (rh, r4) ← decBytes r3
    if r4 = [] then
      some { path := p, leaves := ls, rootHash := rh }
    else none

/-- Schema row of the map database `tiles` table (`MapTile`). -/
structure MapTile where
  revision : Int
  path : List Nat
  tile : List Nat
deriving DecidableEq, Repr

/-- Model of `(*tileToDBRowFn).ProcessElement`: serialize the tile and tag the row
with the DoFn's `Revision` field and the tile's path. -/
def tileToDBRowFn (revision : Int) (t : Tile) : MapTile :=
  { revision := revision, path := t.path, tile := jsonMarshalTile t }

/-- Model of `tileFromDBRowFn`: deserialize the `Tile` column of a row. -/
def tileFromDBRowFn (row : MapTile) : Option Tile :=
  jsonUnmarshalTile row.tile

/-- Recognizer for pipeline-construction events in a trace. -/
def isConstruct : Event → Bool
  | .constructGraph _ => true
  | _ => false

/-- A concrete full-mode flag configuration used to exercise theorems. -/
def flFull : Flags :=
  { sumDB := "s.db", mapDB := "m.db", treeID := 12345, prefixStrata := 2,
    count := -1, batchSize := 250, incrementalUpdate := false,
    buildVersionList := false }

/-- A concrete two-entry mirror with one checkpoint. -/
def sum2 : SumDBState :=
  { checkpoints := [{ datetime := 7, checkpoint := [9] }],
    leafIds := [0, 1] }

/-- A concrete healthy tile database whose next write revision is 3. -/
def mdbOk : MapDBEnv :=
  { initOk := true, nextWriteRev := some 3, latestRev := none,
    writeRevisionOk := true }

/-- A concrete healthy engine environment. -/
def envOk : RunEnv :=
  { constructOk := true, graphRunOk := true }

/-- A concrete empty-but-checkpointed mirror (`T = 0`). -/
def sum0 : SumDBState :=
  { checkpoints := [{ datetime := 7, checkpoint := [9] }], leafIds := [] }

/-- A concrete tile database holding a committed revision 3 covering one
entry, whose next write revision is 4. -/
def mdbInc : MapDBEnv :=
  { initOk := true, nextWriteRev := some 4,
    latestRev := some (3, [8], 1), writeRevisionOk := true }

theorem decBytes_enc (b rest : List Nat) :
    decBytes (encBytes b ++ rest) = some (b, rest) := by
  simp [decBytes, encBytes, List.take_left, List.drop_left]

theorem decBytes_enc_nil (b : List Nat) :
    decBytes (encBytes b) = some (b, []) := by
  have h := decBytes_enc b []
  simpa using h

theorem decLeaves_enc (ls : List (List Nat × List Nat)) (rest : List Nat) :
    decLeaves ls.length (ls.flatMap encLeaf ++ rest) = some (ls, rest) := by
  induction ls generalizing rest with
  | nil => simp [decLeaves]
  | cons l ls ih =>
    simp only [List.length_cons, List.flatMap_cons, encLeaf,
      List.append_assoc, decLeaves, decBytes_enc, Option.bind_eq_bind,
      Option.some_bind, ih]

theorem jsonTile_roundtrip (t : Tile) :
    jsonUnmarshalTile (jsonMarshalTile t) = some t := by
  have hshape : jsonMarshalTile t
      = encBytes t.path
        ++ (t.leaves.length :: (t.leaves.flatMap encLeaf ++ encBytes t.rootHash)) := by
    simp [jsonMarshalTile, List.append_assoc]
  rw [jsonUnmarshalTile, hshape, decBytes_enc]
  simp [decLeaves_enc, decBytes_enc_nil]

/-- C4: whenever both the incremental-update mode and the
version-history feature are enabled, the build fails with the
configuration error before any event: both stores remain unopened and
unread, whatever the other options and the environment are. -/
theorem configError_beforeIO (fl : Flags) (sum : SumDBState)
    (mdb : MapDBEnv) (env : RunEnv) (hb : fl.buildVersionList = true)
    (hi : fl.incrementalUpdate = true) :
    mainBuild fl sum mdb env
      = ([], .error .configVersionListWithIncremental) := by
  unfold mainBuild
  rw [if_pos ⟨hb, hi⟩]

theorem runPhase_write_spec (fl : Flags) (mdb : MapDBEnv) (env : RunEnv)
    (pre : List Event) (rev : Int) (golden : List Nat) (s e : Int)
    (lr : Option Int) (tr : List Event) (res : Except ExitCause BuildResult)
    (h : runPhase fl mdb env pre rev golden s e lr = (tr, res))
    (hpre : ∀ r c x, Event.writeRevision r c x ∉ pre) :
    (∀ r c x, Event.writeRevision r c x ∈ tr →
        env.graphRunOk = true ∧
        ∃ p, tr = p ++ [Event.writeRevision r c x] ∧ Event.runGraph ∈ p)
    ∧ (env.graphRunOk = false →
        (∀ r c x, Event.writeRevision r c x ∉ tr) ∧ ∀ b, res ≠ .ok b) := by
  unfold runPhase at h
  split at h
  · obtain ⟨rfl, rfl⟩ := Prod.mk.injEq .. ▸ h
    constructor
    · intro r c x hmem
      rcases List.mem_append.1 hmem with hp | hs
      · exact absurd hp (hpre r c x)
      · simp at hs
    · intro _
      refine ⟨fun r c x hmem => ?_, by simp⟩
      rcases List.mem_append.1 hmem with hp | hs
      · exact absurd hp (hpre r c x)
      · simp at hs
  · split at h
    · obtain ⟨rfl, rfl⟩ := Prod.mk.injEq .. ▸ h
      constructor
      · intro r c x hmem
        rcases List.mem_append.1 hmem with hp | hs
        · exact absurd hp (hpre r c x)
        · simp at hs
      · intro _
        refine ⟨fun r c x hmem => ?_, by simp⟩
        rcases List.mem_append.1 hmem with hp | hs
        · exact absurd hp (hpre r c x)
        · simp at hs
    · rename_i hco hgo
      have hgo' : env.graphRunOk = true := by
        simpa using hgo
      split at h
      · obtain ⟨rfl, rfl⟩ := Prod.mk.injEq .. ▸ h
        constructor
        · intro r c x hmem
          rcases List.mem_append.1 hmem with hp | hs
          · exact absurd hp (hpre r c x)
          · simp only [List.mem_cons, List.not_mem_nil, or_false] at hs
            rcases hs with hs | hs | hs
            · exact absurd hs (by simp)
            · exact absurd hs (by simp)
            · refine ⟨hgo', pre ++ [.constructGraph (graphOf fl rev s e lr),
                .runGraph], ?_, by simp⟩
              rw [hs]
              simp
        · intro hfalse
          rw [hgo'] at hfalse
          exact absurd hfalse (by simp)
      · obtain ⟨rfl, rfl⟩ := Prod.mk.injEq .. ▸ h
        constructor
        · intro r c x hmem
          rcases List.mem_append.1 hmem with hp | hs
          · exact absurd hp (hpre r c x)
          · simp only [List.mem_cons, List.not_mem_nil, or_false] at hs
            rcases hs with hs | hs | hs
            · exact absurd hs (by simp)
            · exact absurd hs (by simp)
            · refine ⟨hgo', pre ++ [.constructGraph (graphOf fl rev s e lr),
                .runGraph], ?_, by simp⟩
              rw [hs]
              simp
        · intro hfalse
          rw [hgo'] at hfalse
          exact absurd hfalse (by simp)

/-- C2: the revision-finalizing `WriteRevision` call happens only after
the dataflow graph has run to successful completion, it is the last event
of the build, and when graph execution fails the process exits without
ever calling `WriteRevision` and without a successful outcome. -/
theorem writeRevision_last (fl : Flags) (sum : SumDBState) (mdb : MapDBEnv)
    (env : RunEnv) (tr : List Event) (res : Except ExitCause BuildResult)
    (h : mainBuild fl sum mdb env = (tr, res)) :
    (∀ r c x, Event.writeRevision r c x ∈ tr →
        env.graphRunOk = true ∧
        ∃ p, tr = p ++ [Event.writeRevision r c x] ∧ Event.runGraph ∈ p)
    ∧ (env.graphRunOk = false →
        (∀ r c x, Event.writeRevision r c x ∉ tr) ∧ ∀ b, res ≠ .ok b) := by
  unfold mainBuild at h
  split at h
  · obtain ⟨rfl, rfl⟩ := Prod.mk.injEq .. ▸ h
    exact ⟨by simp, fun _ => ⟨by simp, by simp⟩⟩
  split at h
  · obtain ⟨rfl, rfl⟩ := Prod.mk.injEq .. ▸ h
    exact ⟨by simp, fun _ => ⟨by simp, by simp⟩⟩
  split at h
  · obtain ⟨rfl, rfl⟩ := Prod.mk.injEq .. ▸ h
    exact ⟨by simp, fun _ => ⟨by simp, by simp⟩⟩
  split at h
  · obtain ⟨rfl, rfl⟩ := Prod.mk.injEq .. ▸ h
    exact ⟨by simp, fun _ => ⟨by simp, by simp⟩⟩
  split at h
  · obtain ⟨rfl, rfl⟩ := Prod.mk.injEq .. ▸ h
    exact ⟨by simp, fun _ => ⟨by simp, by simp⟩⟩
  split at h
  · obtain ⟨rfl, rfl⟩ := Prod.mk.injEq .. ▸ h
    exact ⟨by simp, fun _ => ⟨by simp, by simp⟩⟩
  split at h
  · obtain ⟨rfl, rfl⟩ := Prod.mk.injEq .. ▸ h
    exact ⟨by simp, fun _ => ⟨by simp, by simp⟩⟩
  split at h
  · split at h
    · obtain ⟨rfl, rfl⟩ := Prod.mk.injEq .. ▸ h
      exact ⟨by simp, fun _ => ⟨by simp, by simp⟩⟩
    · split at h
      · obtain ⟨rfl, rfl⟩ := Prod.mk.injEq .. ▸ h
        exact ⟨by simp, fun _ => ⟨by simp, by simp⟩⟩
      · exact runPhase_write_spec _ _ _ _ _ _ _ _ _ _ _ h (by simp)
  · exact runPhase_write_spec _ _ _ _ _ _ _ _ _ _ _ h (by simp)

/-- Witness for `writeRevision_last`: a concrete successful build whose
trace ends with the `WriteRevision` event. -/
theorem writeRevision_last_witness :
    Event.writeRevision 3 [9] 2 ∈ (mainBuild flFull sum2 mdbOk envOk).1
    ∧ ∃ p, (mainBuild flFull sum2 mdbOk envOk).1
        = p ++ [Event.writeRevision 3 [9] 2] ∧ Event.runGraph ∈ p := by
  refine ⟨by decide, ?_⟩
  exact ((writeRevision_last flFull sum2 mdbOk envOk _ _ rfl).1
    3 [9] 2 (by decide)).2

theorem latestCheckpointRow_spec (cps : List CheckpointRow) (h : cps ≠ []) :
    ∃ row, latestCheckpointRow cps = some row ∧ row ∈ cps ∧
      ∀ r ∈ cps, r.datetime ≤ row.datetime := by
  induction cps with
  | nil => exact absurd rfl h
  | cons a rs ih =>
    by_cases hrs : rs = []
    · subst hrs
      exact ⟨a, by simp [latestCheckpointRow], by simp, by simp⟩
    · obtain ⟨m, hm, hmem, hmax⟩ := ih hrs
      by_cases hd : m.datetime > a.datetime
      · refine ⟨m, ?_, by simp [hmem], ?_⟩
        · simp [latestCheckpointRow, hm, hd]
        · intro r hr
          rcases List.mem_cons.1 hr with rfl | hr
          · exact le_of_lt hd
          · exact hmax r hr
      · refine ⟨a, ?_, by simp, ?_⟩
        · simp [latestCheckpointRow, hm, hd]
        · intro r hr
          rcases List.mem_cons.1 hr with rfl | hr
          · exact le_refl _
          · exact le_trans (hmax r hr) (not_lt.1 hd)

/-- C8: metadata reading returns the single most recently stored
checkpoint (the row of maximal recency) together with the count of all
mirrored entries, and when no checkpoint exists the orchestrator
terminates without constructing a pipeline and without any revision
write or successful outcome. -/
theorem metadata_latest_and_fatal_absence :
    (∀ s : SumDBState, s.checkpoints ≠ [] →
      ∃ row, row ∈ s.checkpoints ∧
        getEntryMetadata s = .ok (row.checkpoint, s.leafIds.length) ∧
        ∀ r ∈ s.checkpoints, r.datetime ≤ row.datetime)
    ∧ (∀ (fl : Flags) (sum : SumDBState) (mdb : MapDBEnv) (env : RunEnv)
        (tr : List Event) (res : Except ExitCause BuildResult),
        mainBuild fl sum mdb env = (tr, res) → sum.checkpoints = [] →
        (∀ g, Event.constructGraph g ∉ tr)
        ∧ (∀ r c x, Event.writeRevision r c x ∉ tr)
        ∧ ∀ b, res ≠ .ok b) := by
  constructor
  · intro s hne
    obtain ⟨row, hrow, hmem, hmax⟩ := latestCheckpointRow_spec s.checkpoints hne
    exact ⟨row, hmem, by simp [getEntryMetadata, hrow], hmax⟩
  · intro fl sum mdb env tr res h hempty
    have hmeta : getEntryMetadata sum = .error () := by
      simp [getEntryMetadata, hempty, latestCheckpointRow]
    unfold mainBuild at h
    split at h
    · obtain ⟨rfl, rfl⟩ := Prod.mk.injEq .. ▸ h
      exact ⟨by simp, by simp, by simp⟩
    split at h
    · obtain ⟨rfl, rfl⟩ := Prod.mk.injEq .. ▸ h
      exact ⟨by simp, by simp, by simp⟩
    split at h
    · obtain ⟨rfl, rfl⟩ := Prod.mk.injEq .. ▸ h
      exact ⟨by simp, by simp, by simp⟩
    split at h
    · obtain ⟨rfl, rfl⟩ := Prod.mk.injEq .. ▸ h
      exact ⟨by simp, by simp, by simp⟩
    split at h
    · obtain ⟨rfl, rfl⟩ := Prod.mk.injEq .. ▸ h
      exact ⟨by simp, by simp, by simp⟩
    · split at h
      · obtain ⟨rfl, rfl⟩ := Prod.mk.injEq .. ▸ h
        exact ⟨by simp, by simp, by simp⟩
      · rename_i heq
        rw [hmeta] at heq
        simp at heq

/-- Witness for `metadata_latest_and_fatal_absence`: an empty mirror with
a healthy environment produces no revision write, and the two-entry
mirror's metadata is its most recent checkpoint with its entry count. -/
theorem metadata_latest_and_fatal_absence_witness :
    Event.writeRevision 3 [] 0
      ∉ (mainBuild flFull { checkpoints := [], leafIds := [] }
          mdbOk envOk).1
    ∧ ∃ row, row ∈ sum2.checkpoints ∧
        getEntryMetadata sum2 = .ok (row.checkpoint, sum2.leafIds.length) ∧
        ∀ r ∈ sum2.checkpoints, r.datetime ≤ row.datetime :=
  ⟨(metadata_latest_and_fatal_absence.2 flFull
      { checkpoints := [], leafIds := [] } mdbOk envOk _ _ rfl rfl).2.1
      3 [] 0,
   metadata_latest_and_fatal_absence.1 sum2 (by decide)⟩

theorem runPhase_construct_spec (fl : Flags) (mdb : MapDBEnv) (env : RunEnv)
    (pre : List Event) (rev : Int) (golden : List Nat) (s e : Int)
    (lr : Option Int) (tr : List Event) (res : Except ExitCause BuildResult)
    (h : runPhase fl mdb env pre rev golden s e lr = (tr, res))
    (hpre : pre.filter isConstruct = []) :
    (∀ g, Event.constructGraph g ∈ tr → g = graphOf fl rev s e lr)
    ∧ (tr.filter isConstruct).length ≤ 1
    ∧ ∀ ev ∈ pre, ev ∈ tr := by
  have hprem : ∀ g, Event.constructGraph g ∉ pre := by
    intro g hg
    have : Event.constructGraph g ∈ pre.filter isConstruct :=
      List.mem_filter.2 ⟨hg, rfl⟩
    rw [hpre] at this
    simp at this
  unfold runPhase at h
  split at h
  · obtain ⟨rfl, rfl⟩ := Prod.mk.injEq .. ▸ h
    refine ⟨?_, ?_, fun ev hev => List.mem_append_left _ hev⟩
    · intro g hg
      rcases List.mem_append.1 hg with hp | hs
      · exact absurd hp (hprem g)
      · simpa using hs
    · simp [List.filter_append, hpre, isConstruct]
  split at h
  · obtain ⟨rfl, rfl⟩ := Prod.mk.injEq .. ▸ h
    refine ⟨?_, ?_, fun ev hev => List.mem_append_left _ hev⟩
    · intro g hg
      rcases List.mem_append.1 hg with hp | hs
      · exact absurd hp (hprem g)
      · simpa [isConstruct] using hs
    · simp [List.filter_append, hpre, isConstruct]
  split at h
  · obtain ⟨rfl, rfl⟩ := Prod.mk.injEq .. ▸ h
    refine ⟨?_, ?_, fun ev hev => List.mem_append_left _ hev⟩
    · intro g hg
      rcases List.mem_append.1 hg with hp | hs
      · exact absurd hp (hprem g)
      · simpa [isConstruct] using hs
    · simp [List.filter_append, hpre, isConstruct]
  · obtain ⟨rfl, rfl⟩ := Prod.mk.injEq .. ▸ h
    refine ⟨?_, ?_, fun ev hev => List.mem_append_left _ hev⟩
    · intro g hg
      rcases List.mem_append.1 hg with hp | hs
      · exact absurd hp (hprem g)
      · simpa [isConstruct] using hs
    · simp [List.filter_append, hpre, isConstruct]

theorem mainBuild_construct_spec (fl : Flags) (sum : SumDBState)
    (mdb : MapDBEnv) (env : RunEnv) (tr : List Event)
    (res : Except ExitCause BuildResult)
    (h : mainBuild fl sum mdb env = (tr, res)) :
    (tr.filter isConstruct).length ≤ 1
    ∧ ∀ g, Event.constructGraph g ∈ tr →
      ∃ rev golden totalLeaves,
        mdb.nextWriteRev = some rev ∧
        getEntryMetadata sum = .ok (golden, totalLeaves) ∧
        Event.nextWriteRevision rev ∈ tr ∧
        ((fl.incrementalUpdate = false ∧
            g = graphOf fl rev 0 (resolveEndID fl.count totalLeaves) none)
         ∨ ∃ lastMapRev cp startID,
             fl.incrementalUpdate = true ∧
             mdb.latestRev = some (lastMapRev, cp, startID) ∧
             g = graphOf fl rev startID (resolveEndID fl.count totalLeaves)
               (some lastMapRev)) := by
  unfold mainBuild at h
  split at h
  · obtain ⟨rfl, rfl⟩ := Prod.mk.injEq .. ▸ h
    exact ⟨by simp, by simp⟩
  split at h
  · obtain ⟨rfl, rfl⟩ := Prod.mk.injEq .. ▸ h
    exact ⟨by simp, by simp⟩
  split at h
  · obtain ⟨rfl, rfl⟩ := Prod.mk.injEq .. ▸ h
    exact ⟨by simp [isConstruct], by simp⟩
  split at h
  · obtain ⟨rfl, rfl⟩ := Prod.mk.injEq .. ▸ h
    exact ⟨by simp [isConstruct], by simp⟩
  split at h
  · obtain ⟨rfl, rfl⟩ := Prod.mk.injEq .. ▸ h
    exact ⟨by simp [isConstruct], by simp⟩
  · rename_i rev hrev
    split at h
    · obtain ⟨rfl, rfl⟩ := Prod.mk.injEq .. ▸ h
      exact ⟨by simp [isConstruct], by simp⟩
    · rename_i golden totalLeaves hmeta
      split at h
      · obtain ⟨rfl, rfl⟩ := Prod.mk.injEq .. ▸ h
        exact ⟨by simp [isConstruct], by simp⟩
      split at h
      · -- incremental mode
        split at h
        · obtain ⟨rfl, rfl⟩ := Prod.mk.injEq .. ▸ h
          exact ⟨by simp [isConstruct], by simp⟩
        · rename_i lastMapRev cp startID hlr
          split at h
          · obtain ⟨rfl, rfl⟩ := Prod.mk.injEq .. ▸ h
            exact ⟨by simp [isConstruct], by simp⟩
          · obtain ⟨hone, hlen, hkeep⟩ := runPhase_construct_spec
              _ _ _ _ _ _ _ _ _ _ _ h (by simp [isConstruct])
            refine ⟨hlen, fun g hg => ?_⟩
            refine ⟨rev, golden, totalLeaves, hrev, hmeta,
              hkeep _ (by simp), ?_⟩
            rename_i hinc _ _
            exact Or.inr ⟨lastMapRev, cp, startID, hinc, hlr, hone g hg⟩
      · -- full mode
        obtain ⟨hone, hlen, hkeep⟩ := runPhase_construct_spec
            _ _ _ _ _ _ _ _ _ _ _ h (by simp [isConstruct])
        refine ⟨hlen, fun g hg => ?_⟩
        refine ⟨rev, golden, totalLeaves, hrev, hmeta,
          hkeep _ (by simp), ?_⟩
        rename_i hinc
        have hinc' : fl.incrementalUpdate = false := by
          simpa using hinc
        exact Or.inl ⟨hinc', hone g hg⟩

/-- C9: tile-row serialization round-trips: `tileToDBRowFn` at revision
`r` produces a row whose `Revision` is `r` and whose `Path` is the tile's
path, and `tileFromDBRowFn` recovers the tile from that row; moreover the
revision tag wired into the row-conversion transform of any build is the
revision allocated by `NextWriteRevision` for that build. -/
theorem tileRow_roundtrip (r : Int) (t : Tile) :
    ((tileToDBRowFn r t).revision = r ∧ (tileToDBRowFn r t).path = t.path ∧
      tileFromDBRowFn (tileToDBRowFn r t) = some t)
    ∧ ∀ (fl : Flags) (sum : SumDBState) (mdb : MapDBEnv) (env : RunEnv)
        (tr : List Event) (res : Except ExitCause BuildResult) (g : Graph),
        mainBuild fl sum mdb env = (tr, res) →
        Event.constructGraph g ∈ tr →
        Event.nextWriteRevision g.sinkRevision ∈ tr := by
  constructor
  · refine ⟨rfl, rfl, ?_⟩
    simp [tileFromDBRowFn, tileToDBRowFn, jsonTile_roundtrip]
  · intro fl sum mdb env tr res g h hg
    obtain ⟨_, hchar⟩ := mainBuild_construct_spec _ _ _ _ _ _ h
    obtain ⟨rev, golden, tl, _, _, hmemrev, hcase⟩ := hchar g hg
    rcases hcase with ⟨_, rfl⟩ | ⟨lr, cp, sid, _, _, rfl⟩
    · simpa [graphOf] using hmemrev
    · simpa [graphOf] using hmemrev

/-- Witness for `tileRow_roundtrip`: the hypotheses of its build clause
hold on a concrete successful full build. -/
theorem tileRow_roundtrip_witness :
    Event.nextWriteRevision (graphOf flFull 3 0 2 none).sinkRevision
      ∈ (mainBuild flFull sum2 mdbOk envOk).1 :=
  (tileRow_roundtrip 3 { path := [], leaves := [], rootHash := [] }).2
    flFull sum2 mdbOk envOk (mainBuild flFull sum2 mdbOk envOk).1
    (mainBuild flFull sum2 mdbOk envOk).2 (graphOf flFull 3 0 2 none)
    rfl (by decide)

/-- C5: at most one tree transform is wired per invocation, and it is
`batchmap.Create(entries, treeID, hash, prefixStrata)` exactly in full
mode (with no prior-tile read) and `batchmap.Update(priorTiles, entries,
treeID, hash, prefixStrata)` exactly in incremental mode, with
`priorTiles` read back from the tile store tagged with the latest
committed revision's number. -/
theorem treeOp_mode_selection (fl : Flags) (sum : SumDBState)
    (mdb : MapDBEnv) (env : RunEnv) (tr : List Event)
    (res : Except ExitCause BuildResult)
    (h : mainBuild fl sum mdb env = (tr, res)) :
    (tr.filter isConstruct).length ≤ 1
    ∧ ∀ g, Event.constructGraph g ∈ tr →
        (fl.incrementalUpdate = false →
          g.treeOp = .create fl.treeID hash fl.prefixStrata)
        ∧ (fl.incrementalUpdate = true →
          ∃ lastMapRev cp startID,
            mdb.latestRev = some (lastMapRev, cp, startID) ∧
            g.treeOp = .update lastMapRev fl.treeID hash fl.prefixStrata) := by
  obtain ⟨hlen, hchar⟩ := mainBuild_construct_spec _ _ _ _ _ _ h
  refine ⟨hlen, fun g hg => ?_⟩
  obtain ⟨rev, golden, tl, _, _, _, hcase⟩ := hchar g hg
  rcases hcase with ⟨hfull, rfl⟩ | ⟨lr, cp, sid, hinc, hlr, rfl⟩
  · constructor
    · intro _
      simp [graphOf, treeOpOf]
    · intro hinc
      rw [hfull] at hinc
      exact absurd hinc (by simp)
  · constructor
    · intro hfull
      rw [hinc] at hfull
      exact absurd hfull (by simp)
    · intro _
      exact ⟨lr, cp, sid, hlr, by simp [graphOf, treeOpOf]⟩

/-- Witness for `treeOp_mode_selection`: the full-mode build wires the
`Create` transform on a concrete invocation. -/
theorem treeOp_mode_selection_witness :
    (graphOf flFull 3 0 2 none).treeOp
      = TreeOp.create flFull.treeID hash flFull.prefixStrata :=
  ((treeOp_mode_selection flFull sum2 mdbOk envOk _ _ rfl).2
    (graphOf flFull 3 0 2 none) (by decide)).1 rfl

/-- C1: in full mode, when the requested cap does not exceed the
available entry count and the environment is healthy, the build succeeds:
the graph's source range is `[0, endID)` with `endID = count` for a
non-negative cap and `endID = totalLeaves` for an unbounded (negative)
cap, and the committed revision covers `endID` entries.  `T = 0` is legal
(see the witness, which commits a revision over an empty range). -/
theorem fullMode_range (fl : Flags) (sum : SumDBState) (mdb : MapDBEnv)
    (env : RunEnv) (rev : Int)
    (hinc : fl.incrementalUpdate = false)
    (hsum : fl.sumDB.length ≠ 0) (hmap : fl.mapDB.length ≠ 0)
    (hinit : mdb.initOk = true) (hrev : mdb.nextWriteRev = some rev)
    (hcp : sum.checkpoints ≠ [])
    (hcount : fl.count ≤ (sum.leafIds.length : Int))
    (hcon : env.constructOk = true) (hrun : env.graphRunOk = true)
    (hwr : mdb.writeRevisionOk = true) :
    ∃ golden,
      getEntryMetadata sum = .ok (golden, sum.leafIds.length) ∧
      (mainBuild fl sum mdb env).2
        = .ok { revision := rev, checkpoint := golden,
                endID := resolveEndID fl.count sum.leafIds.length } ∧
      Event.constructGraph
          (graphOf fl rev 0 (resolveEndID fl.count sum.leafIds.length) none)
        ∈ (mainBuild fl sum mdb env).1 ∧
      (0 ≤ fl.count →
        resolveEndID fl.count sum.leafIds.length = fl.count) ∧
      (fl.count < 0 →
        resolveEndID fl.count sum.leafIds.length
          = (sum.leafIds.length : Int)) := by
  obtain ⟨row, hrow, hmem, hmax⟩ := latestCheckpointRow_spec sum.checkpoints hcp
  have hmeta : getEntryMetadata sum = .ok (row.checkpoint, sum.leafIds.length) := by
    simp [getEntryMetadata, hrow]
  have h1 : ¬(fl.buildVersionList = true ∧ fl.incrementalUpdate = true) := by
    simp [hinc]
  have h7 : ¬((sum.leafIds.length : Int) < fl.count) := not_lt.2 hcount
  refine ⟨row.checkpoint, hmeta, ?_, ?_, ?_, ?_⟩
  · simp only [mainBuild, runPhase, hrev, hmeta, hinc, hinit, hcon, hrun,
      hwr, if_neg h1, if_neg hsum, if_neg hmap, if_neg h7]
    simp
  · simp only [mainBuild, runPhase, hrev, hmeta, hinc, hinit, hcon, hrun,
      hwr, if_neg h1, if_neg hsum, if_neg hmap, if_neg h7]
    simp
  · intro hc
    simp [resolveEndID, not_lt.2 hc]
  · intro hc
    simp [resolveEndID, hc]

/-- Witness for `fullMode_range`: a full unbounded build over an empty
(`T = 0`) checkpointed mirror succeeds and commits a revision covering 0
entries. -/
theorem fullMode_range_witness :
    ∃ golden,
      getEntryMetadata sum0 = .ok (golden, sum0.leafIds.length) ∧
      (mainBuild flFull sum0 mdbOk envOk).2
        = .ok { revision := 3, checkpoint := golden,
                endID := resolveEndID flFull.count sum0.leafIds.length } ∧
      Event.constructGraph
          (graphOf flFull 3 0
            (resolveEndID flFull.count sum0.leafIds.length) none)
        ∈ (mainBuild flFull sum0 mdbOk envOk).1 ∧
      (0 ≤ flFull.count →
        resolveEndID flFull.count sum0.leafIds.length = flFull.count) ∧
      (flFull.count < 0 →
        resolveEndID flFull.count sum0.leafIds.length
          = (sum0.leafIds.length : Int)) :=
  fullMode_range flFull sum0 mdbOk envOk 3 rfl (by decide) (by decide)
    rfl rfl (by decide) (by decide) rfl rfl rfl

/-- C6: a bounded cap exceeding the available entry count aborts the
build with the insufficient-entries error, before any graph is
constructed and before any tile or revision write. -/
theorem insufficient_entries_abort (fl : Flags) (sum : SumDBState)
    (mdb : MapDBEnv) (env : RunEnv) (rev : Int)
    (hnc : ¬(fl.buildVersionList = true ∧ fl.incrementalUpdate = true))
    (hsum : fl.sumDB.length ≠ 0) (hmap : fl.mapDB.length ≠ 0)
    (hinit : mdb.initOk = true) (hrev : mdb.nextWriteRev = some rev)
    (hcp : sum.checkpoints ≠ []) (_hc0 : 0 ≤ fl.count)
    (hgt : (sum.leafIds.length : Int) < fl.count) :
    (mainBuild fl sum mdb env).2
      = .error (.insufficientLeaves fl.count sum.leafIds.length)
    ∧ (∀ g, Event.constructGraph g ∉ (mainBuild fl sum mdb env).1)
    ∧ (∀ r c x, Event.writeRevision r c x
        ∉ (mainBuild fl sum mdb env).1) := by
  obtain ⟨row, hrow, hmem, hmax⟩ := latestCheckpointRow_spec sum.checkpoints hcp
  have hmeta : getEntryMetadata sum
      = .ok (row.checkpoint, sum.leafIds.length) := by
    simp [getEntryMetadata, hrow]
  refine ⟨?_, ?_, ?_⟩ <;>
    simp only [mainBuild, hrev, hmeta, hinit, if_neg hnc, if_neg hsum,
      if_neg hmap, if_pos hgt] <;>
    simp

/-- Witness for `insufficient_entries_abort`: requesting 5 entries from
an empty mirror fails with the insufficient-entries error and writes
nothing. -/
theorem insufficient_entries_abort_witness :
    (mainBuild { flFull with count := 5 } sum0 mdbOk envOk).2
      = .error (.insufficientLeaves 5 0)
    ∧ Event.writeRevision 3 [9] 0
        ∉ (mainBuild { flFull with count := 5 } sum0 mdbOk envOk).1 :=
  ⟨(insufficient_entries_abort { flFull with count := 5 } sum0 mdbOk envOk
      3 (by decide) (by decide) (by decide) rfl rfl (by decide) (by decide)
      (by decide)).1,
   (insufficient_entries_abort { flFull with count := 5 } sum0 mdbOk envOk
      3 (by decide) (by decide) (by decide) rfl rfl (by decide) (by decide)
      (by decide)).2.2 3 [9] 0⟩

/-- C3: in incremental mode (cap within the available count), resolution
fails exactly when `LatestRevision` errors (no prior revision) or when
`startID ≥ endID`; otherwise the graph's source range starts at the prior
revision's covered entry count and its tree transform updates the prior
revision's tiles, and neither range error is the outcome. -/
theorem incrementalMode_resolution (fl : Flags) (sum : SumDBState)
    (mdb : MapDBEnv) (env : RunEnv) (rev : Int)
    (hinc : fl.incrementalUpdate = true)
    (hbvl : fl.buildVersionList = false)
    (hsum : fl.sumDB.length ≠ 0) (hmap : fl.mapDB.length ≠ 0)
    (hinit : mdb.initOk = true) (hrev : mdb.nextWriteRev = some rev)
    (hcp : sum.checkpoints ≠ [])
    (hcount : fl.count ≤ (sum.leafIds.length : Int)) :
    (mdb.latestRev = none →
      (mainBuild fl sum mdb env).2 = .error .latestRevisionFailed)
    ∧ ∀ lastMapRev cp startID,
        mdb.latestRev = some (lastMapRev, cp, startID) →
        (startID ≥ resolveEndID fl.count sum.leafIds.length →
          (mainBuild fl sum mdb env).2
            = .error (.emptyRange startID
                (resolveEndID fl.count sum.leafIds.length)))
        ∧ (startID < resolveEndID fl.count sum.leafIds.length →
            Event.constructGraph
                (graphOf fl rev startID
                  (resolveEndID fl.count sum.leafIds.length)
                  (some lastMapRev))
              ∈ (mainBuild fl sum mdb env).1
            ∧ (mainBuild fl sum mdb env).2 ≠ .error .latestRevisionFailed
            ∧ ∀ a b, (mainBuild fl sum mdb env).2
                ≠ .error (.emptyRange a b)) := by
  obtain ⟨row, hrow, hmem, hmax⟩ := latestCheckpointRow_spec sum.checkpoints hcp
  have hmeta : getEntryMetadata sum
      = .ok (row.checkpoint, sum.leafIds.length) := by
    simp [getEntryMetadata, hrow]
  have h1 : ¬(fl.buildVersionList = true ∧ fl.incrementalUpdate = true) := by
    simp [hbvl]
  have h7 : ¬((sum.leafIds.length : Int) < fl.count) := not_lt.2 hcount
  constructor
  · intro hnone
    simp only [mainBuild, hrev, hmeta, hinit, hinc, hbvl, hnone,
      if_neg hsum, if_neg hmap, if_neg h7]
    simp
  · intro lastMapRev cp startID hlr
    constructor
    · intro hge
      simp only [mainBuild, hrev, hmeta, hinit, hinc, hbvl, hlr,
        if_neg hsum, if_neg hmap, if_neg h7, if_pos hge]
      simp
    · intro hlt
      have hge' : ¬(startID ≥ resolveEndID fl.count sum.leafIds.length) :=
        not_le.2 hlt
      simp only [mainBuild, hrev, hmeta, hinit, hinc, hbvl, hlr,
        Bool.false_eq_true, Bool.true_eq_false, false_and, and_true,
        eq_self_iff_true, if_true, if_false, if_neg hsum, if_neg hmap,
        if_neg h7, if_neg hge']
      unfold runPhase
      split
      · exact ⟨by simp, by simp, by intro a b; simp⟩
      split
      · exact ⟨by simp, by simp, by intro a b; simp⟩
      split
      · exact ⟨by simp, by simp, by intro a b; simp⟩
      · exact ⟨by simp, by simp, by intro a b; simp⟩

/-- Witness for `incrementalMode_resolution`: an incremental build over a
two-entry mirror whose prior revision covers one entry wires the update
transform over range `[1, 2)`. -/
theorem incrementalMode_resolution_witness :
    Event.constructGraph
        (graphOf { flFull with incrementalUpdate := true } 4 1 2 (some 3))
      ∈ (mainBuild { flFull with incrementalUpdate := true }
          sum2 mdbInc envOk).1 :=
  (((incrementalMode_resolution
      { flFull with incrementalUpdate := true } sum2 mdbInc envOk 4
      rfl rfl (by decide) (by decide) rfl rfl (by decide) (by decide)).2
      3 [8] 1 rfl).2 (by decide)).1

theorem runPhase_trace_shape (fl : Flags) (mdb : MapDBEnv) (env : RunEnv)
    (pre : List Event) (rev : Int) (golden : List Nat) (s e : Int)
    (lr : Option Int) (tr : List Event) (res : Except ExitCause BuildResult)
    (h : runPhase fl mdb env pre rev golden s e lr = (tr, res)) :
    ∃ suffix, tr = pre ++ suffix := by
  unfold runPhase at h
  split at h
  · obtain ⟨rfl, rfl⟩ := Prod.mk.injEq .. ▸ h
    exact ⟨_, rfl⟩
  split at h
  · obtain ⟨rfl, rfl⟩ := Prod.mk.injEq .. ▸ h
    exact ⟨_, rfl⟩
  split at h
  · obtain ⟨rfl, rfl⟩ := Prod.mk.injEq .. ▸ h
    exact ⟨_, rfl⟩
  · obtain ⟨rfl, rfl⟩ := Prod.mk.injEq .. ▸ h
    exact ⟨_, rfl⟩

/-- C7 (amended): the configuration check runs before any I/O, but the
revision number is allocated by `NextWriteRevision` during tile-store
initialization, before range resolution: whenever the log metadata is
read at all, a `nextWriteRevision` event strictly precedes the
`getEntryMetadata` event in the trace. -/
theorem allocation_precedes_range (fl : Flags) (sum : SumDBState)
    (mdb : MapDBEnv) (env : RunEnv) (tr : List Event)
    (res : Except ExitCause BuildResult)
    (h : mainBuild fl sum mdb env = (tr, res)) :
    Event.getEntryMetadata ∈ tr →
      ∃ rv rest, tr = Event.openSumDB :: Event.openMapDB ::
        Event.nextWriteRevision rv :: Event.getEntryMetadata :: rest := by
  intro hmem
  unfold mainBuild at h
  split at h
  · obtain ⟨rfl, rfl⟩ := Prod.mk.injEq .. ▸ h
    simp at hmem
  split at h
  · obtain ⟨rfl, rfl⟩ := Prod.mk.injEq .. ▸ h
    simp at hmem
  split at h
  · obtain ⟨rfl, rfl⟩ := Prod.mk.injEq .. ▸ h
    simp at hmem
  split at h
  · obtain ⟨rfl, rfl⟩ := Prod.mk.injEq .. ▸ h
    simp at hmem
  split at h
  · obtain ⟨rfl, rfl⟩ := Prod.mk.injEq .. ▸ h
    simp at hmem
  · rename_i rev hrev
    split at h
    · obtain ⟨rfl, rfl⟩ := Prod.mk.injEq .. ▸ h
      exact ⟨rev, [], rfl⟩
    · rename_i golden totalLeaves hmeta
      split at h
      · obtain ⟨rfl, rfl⟩ := Prod.mk.injEq .. ▸ h
        exact ⟨rev, [], rfl⟩
      split at h
      · split at h
        · obtain ⟨rfl, rfl⟩ := Prod.mk.injEq .. ▸ h
          exact ⟨rev, [Event.latestRevision], rfl⟩
        · split at h
          · obtain ⟨rfl, rfl⟩ := Prod.mk.injEq .. ▸ h
            exact ⟨rev, [Event.latestRevision], rfl⟩
          · obtain ⟨suffix, rfl⟩ := runPhase_trace_shape _ _ _ _ _ _ _ _ _ _ _ h
            exact ⟨rev, Event.latestRevision :: suffix, by simp⟩
      · obtain ⟨suffix, rfl⟩ := runPhase_trace_shape _ _ _ _ _ _ _ _ _ _ _ h
        exact ⟨rev, suffix, by simp⟩

/-- Witness for `allocation_precedes_range` on a concrete successful
build. -/
theorem allocation_precedes_range_witness :
    ∃ rv rest, (mainBuild flFull sum2 mdbOk envOk).1
      = Event.openSumDB :: Event.openMapDB ::
        Event.nextWriteRevision rv :: Event.getEntryMetadata :: rest :=
  allocation_precedes_range flFull sum2 mdbOk envOk _ _ rfl (by decide)

/-- C7 counterexample: a build that fails range resolution (requesting 7
entries from an empty mirror) has already allocated revision 3 via
`NextWriteRevision`: the allocation event precedes the metadata read in
the trace, so allocation is not preceded by range resolution. -/
theorem allocation_precedes_range_counterexample :
    (mainBuild { flFull with count := 7 } sum0 mdbOk envOk).1
      = [Event.openSumDB, Event.openMapDB, Event.nextWriteRevision 3,
         Event.getEntryMetadata]
    ∧ (mainBuild { flFull with count := 7 } sum0 mdbOk envOk).2
      = .error (.insufficientLeaves 7 0) := by
  exact ⟨rfl, rfl⟩

/-- C10: every negative `count` is the unbounded cap: the resolved
`endID` is the total entry count, the insufficient-entries check cannot
fire, and any two negative counts make the whole build behave
identically. -/
theorem negative_count_unbounded (fl : Flags) (sum : SumDBState)
    (mdb : MapDBEnv) (env : RunEnv) (c1 c2 : Int)
    (h1 : c1 < 0) (h2 : c2 < 0) :
    resolveEndID c1 sum.leafIds.length = (sum.leafIds.length : Int)
    ∧ ¬((sum.leafIds.length : Int) < c1)
    ∧ mainBuild { fl with count := c1 } sum mdb env
        = mainBuild { fl with count := c2 } sum mdb env := by
  have e1 : ∀ t : Nat, ((t : Int) < c1) = False := fun t => eq_false (by omega)
  have e2 : ∀ t : Nat, ((t : Int) < c2) = False := fun t => eq_false (by omega)
  refine ⟨by simp [resolveEndID, h1], by simp [e1], ?_⟩
  dsimp only [mainBuild, runPhase, graphOf, treeOpOf, resolveEndID]
  simp only [e1, e2, if_pos h1, if_pos h2, if_false]

/-- Witness for `negative_count_unbounded`: counts -1 and -5 behave
identically on a concrete build. -/
theorem negative_count_unbounded_witness :
    mainBuild { flFull with count := -1 } sum2 mdbOk envOk
      = mainBuild { flFull with count := -5 } sum2 mdbOk envOk :=
  (negative_count_unbounded flFull sum2 mdbOk envOk (-1) (-5)
    (by decide) (by decide)).2.2

/-- Witness for `configError_beforeIO` at a concrete configuration. -/
theorem configError_beforeIO_witness :
    mainBuild
      { flFull with incrementalUpdate := true, buildVersionList := true }
      sum2 mdbOk envOk
      = ([], .error .configVersionListWithIncremental) :=
  configError_beforeIO
    { flFull with incrementalUpdate := true, buildVersionList := true }
    sum2 mdbOk envOk rfl rfl

end SumDBMap
